import Mathlib

/-
Verification development for the Scattering-Analysis-GUI image engine
(`myRealImageDisplay.cpp`).  The non-GUI computational core is shallowly
embedded: C++ `int` values become `ℤ` (or `ℕ` for sizes), `double` values
are idealized as exact rationals `ℚ` (for the decoder grey formula and the
zoom factor, whose constants are decimal literals) or reals `ℝ` (for the
trigonometric radial sampler); the IEEE NaN produced by
`numeric_limits::quiet_NaN()` is modelled as `Option.none`.  Stateful
panel code (`ImagePanel`) is embedded as explicit state passing over a
`PanelState` record.
-/

set_option maxRecDepth 4000
set_option maxHeartbeats 1000000

/-! ## Data model -/

/-- Canonical decoded image: the source stores one grey intensity per pixel,
replicated across the three RGB channels of a `wxImage`; since every
operation keeps the three replicas equal we model the single intensity
channel, row-major, `data.length = w * h` for decoder-produced buffers. -/
structure Raster where
  w : ℕ
  h : ℕ
  data : List ℕ
deriving DecidableEq, Repr

/-- Pixel read at natural coordinates, row-major (`GetData()[ (y*w+x)*3 ]`). -/
def Raster.pix (img : Raster) (x y : ℕ) : ℕ :=
  img.data.getD (y * img.w + x) 0

/-- Pixel read at integer coordinates, used by the sampler after its own
bounds check (`GetGray`). -/
def Raster.pixI (img : Raster) (x y : ℤ) : ℕ :=
  img.data.getD (y.toNat * img.w + x.toNat) 0

/-- Integer selection rectangle, mirroring `wxRect` (x, y, width, height). -/
structure Rect where
  x : ℤ
  y : ℤ
  w : ℤ
  h : ℤ
deriving DecidableEq, Repr

/-- `wxRect::IsEmpty()`: true when width or height is non-positive. -/
def Rect.isEmpty (r : Rect) : Prop := r.w ≤ 0 ∨ r.h ≤ 0

instance (r : Rect) : Decidable r.isEmpty := by
  unfold Rect.isEmpty; infer_instance

/-! ## RawRasterDecoder (`ImageFrame::LoadImage`) -/

/-- Decode failure kinds: the size checks before the read fail as
`tooSmall`, a read that yields fewer bytes than required fails as
`truncated`. -/
inductive DecodeError where
  | tooSmall
  | truncated
deriving DecidableEq, Repr

/-- A binary input stream: `size` is the length reported by
`seekg(0,end); tellg()`, `data` the bytes actually readable.  In the
normal case `size = data.length`; a stream truncated between the size
query and the read has `data.length < size`. -/
structure ByteStream where
  size : ℕ
  data : List ℕ
deriving DecidableEq, Repr

/-- Grey intensity stored by the decoder:
`(unsigned char)round(0.299*r + 0.587*g + 0.114*b)` with the decimal
double constants idealized as exact rationals; `round` on a non-negative
argument is `⌊x + 1/2⌋`, and the `unsigned char` conversion reduces
mod 256. -/
def greyOf (r g b : ℕ) : ℕ :=
  (⌊(0.299 : ℚ) * r + (0.587 : ℚ) * g + (0.114 : ℚ) * b + 1/2⌋).toNat % 256

/-- `ImageFrame::LoadImage`, the pure decoding part, generalized over the
header offset and image dimensions (the source fixes `off = 3072`,
`w = 2082`, `h = 2217`, and a pixel stride of 4).  Checks, in source
order: reported size below the header offset (`sz <= 0 || sz <
HEADER_OFFSET`), payload-size check (`sz - HEADER_OFFSET < expected`),
then the read of `expected` bytes from `off`, failing as `truncated`
when it yields fewer (`gcount < expected`).  Each 4-byte group is
(B, G, R, A) in that order; only B, G, R feed the grey value. -/
def loadRaster (s : ByteStream) (off w h : ℕ) : Except DecodeError Raster :=
  if s.size < off then .error .tooSmall
  else if s.size - off < w * h * 4 then .error .tooSmall
  else
    let buffer := (s.data.drop off).take (w * h * 4)
    if buffer.length < w * h * 4 then .error .truncated
    else .ok
      { w := w, h := h,
        data := (List.range (w * h)).map fun i =>
          greyOf (buffer.getD (i * 4 + 2) 0) (buffer.getD (i * 4 + 1) 0)
            (buffer.getD (i * 4) 0) }

/-- The source's fixed legacy-format parameters. -/
def loadRasterFixed (s : ByteStream) : Except DecodeError Raster :=
  loadRaster s 3072 2082 2217

/-! ## Decoder: spec-side description (for the refinement claims) -/

/-- Spec-side grey value, following the spec's words: `grey =
round(0.299*R + 0.587*G + 0.114*B)`, clamped to [0, 255]. -/
def greySpec (r g b : ℕ) : ℕ :=
  min 255 (⌊(0.299 : ℚ) * r + (0.587 : ℚ) * g + (0.114 : ℚ) * b + 1/2⌋).toNat

/-- Spec-side decoded buffer: pixel group `i` is read at byte offset
`off + 4*i` in (B, G, R, A) order and converted by `greySpec`. -/
def decodeSpec (s : ByteStream) (off w h : ℕ) : Raster :=
  { w := w, h := h,
    data := (List.range (w * h)).map fun i =>
      greySpec (s.data.getD (off + i * 4 + 2) 0) (s.data.getD (off + i * 4 + 1) 0)
        (s.data.getD (off + i * 4) 0) }

/-! ## Decoder lemmas -/

lemma getD_range_map {α : Type} (f : ℕ → α) (n i : ℕ) (d : α) (hi : i < n) :
    ((List.range n).map f).getD i d = f i := by
  rw [List.getD_eq_getElem?_getD]
  rw [List.getElem?_map]
  rw [List.getElem?_range hi]
  rfl

lemma greyOf_lt (r g b : ℕ) (hr : r < 256) (hg : g < 256) (hb : b < 256) :
    (⌊(0.299 : ℚ) * r + (0.587 : ℚ) * g + (0.114 : ℚ) * b + 1/2⌋).toNat ≤ 255 := by
  have hq : (0.299 : ℚ) * r + (0.587 : ℚ) * g + (0.114 : ℚ) * b + 1/2 < 256 := by
    have hr' : (r : ℚ) ≤ 255 := by exact_mod_cast Nat.lt_succ_iff.mp hr
    have hg' : (g : ℚ) ≤ 255 := by exact_mod_cast Nat.lt_succ_iff.mp hg
    have hb' : (b : ℚ) ≤ 255 := by exact_mod_cast Nat.lt_succ_iff.mp hb
    nlinarith
  have hfl : (⌊(0.299 : ℚ) * r + (0.587 : ℚ) * g + (0.114 : ℚ) * b + 1/2⌋ : ℤ) < 256 :=
    Int.floor_lt.mpr (by exact_mod_cast hq)
  omega

lemma greyOf_eq_greySpec (r g b : ℕ) (hr : r < 256) (hg : g < 256) (hb : b < 256) :
    greyOf r g b = greySpec r g b := by
  unfold greyOf greySpec
  have h := greyOf_lt r g b hr hg hb
  omega

/-! ## ImagePanel state (`SelectionAndHistory`, `ViewTransform`, clipboard) -/

/-- `MAX_HISTORY` from the source. -/
def MAX_HISTORY : ℕ := 16

/-- The four paste blend operators of `ImagePanel::PasteClipboard`. -/
inductive BlendMode where
  | opAnd
  | opOr
  | opXor
  | opBlend
deriving DecidableEq, Repr

/-- Per-channel combination of destination and source intensities:
`dst &= src`, `dst |= src`, `dst ^= src`, `dst = (dst + src) / 2`. -/
def blendPix : BlendMode → ℕ → ℕ → ℕ
  | .opAnd, d, s => d &&& s
  | .opOr, d, s => d ||| s
  | .opXor, d, s => d ^^^ s
  | .opBlend, d, s => (d + s) / 2

/-- Mutable state of an `ImagePanel`: the current image (`m_originalImg`,
absent when invalid), zoom factor and fit flag, the selection rectangle
and drag state, the internal clipboard (`m_clipboard`, absent when
invalid) and the bounded undo history. -/
structure PanelState where
  current : Option Raster
  zoomFactor : ℚ
  fitMode : Bool
  selection : Rect
  selecting : Bool
  startPoint : ℤ × ℤ
  clipboard : Option Raster
  history : List Raster
deriving DecidableEq, Repr

/-- Member initializers of `ImagePanel`: no image, zoom 1.0, fit mode on,
empty selection, nothing copied, empty history. -/
def emptySession : PanelState :=
  { current := none, zoomFactor := 1, fitMode := true,
    selection := ⟨0, 0, 0, 0⟩, selecting := false, startPoint := (0, 0),
    clipboard := none, history := [] }

/-- `ImagePanel::ApplyZoom` (state part; the scaled-bitmap rendering is
display-only).  `viewport` is the client size supplied by the toolkit.
In fit mode with non-degenerate image dimensions the zoom becomes
`min(panel.x / w, panel.y / h)`, reset to 1.0 when non-positive. -/
def applyZoom (st : PanelState) (viewport : ℤ × ℤ) : PanelState :=
  match st.current with
  | none => st
  | some img =>
    if st.fitMode ∧ 0 < img.w ∧ 0 < img.h then
      let z := min ((viewport.1 : ℚ) / img.w) ((viewport.2 : ℚ) / img.h)
      { st with zoomFactor := if z ≤ 0 then 1 else z }
    else st

/-- `ImagePanel::ZoomIn`: multiply by 1.2, leave fit mode, re-apply. -/
def zoomIn (st : PanelState) (viewport : ℤ × ℤ) : PanelState :=
  applyZoom { st with zoomFactor := st.zoomFactor * 1.2, fitMode := false } viewport

/-- `ImagePanel::ZoomOut`: divide by 1.2, floor at 0.01, leave fit mode. -/
def zoomOut (st : PanelState) (viewport : ℤ × ℤ) : PanelState :=
  let z := st.zoomFactor / 1.2
  applyZoom { st with zoomFactor := if z < 0.01 then 0.01 else z, fitMode := false } viewport

/-- `ImagePanel::ZoomFit`: enter fit mode and re-apply. -/
def zoomFit (st : PanelState) (viewport : ℤ × ℤ) : PanelState :=
  applyZoom { st with fitMode := true } viewport

/-- `ImagePanel::SetImage`: when a current image exists push it on the
history, evicting the oldest entry when the size exceeds `MAX_HISTORY`;
then replace the current image and zoom-fit. -/
def setImage (st : PanelState) (img : Raster) (viewport : ℤ × ℤ) : PanelState :=
  let st' :=
    match st.current with
    | some cur =>
      let hist := st.history ++ [cur]
      { st with history := if MAX_HISTORY < hist.length then hist.drop 1 else hist }
    | none => st
  zoomFit { st' with current := some img } viewport

/-- `ImagePanel::Undo`: when the history is non-empty restore its last
snapshot and zoom-fit; otherwise only a notice is shown ("No previous
image to undo."), with no state change. -/
def undo (st : PanelState) (viewport : ℤ × ℤ) : PanelState :=
  match st.history.getLast? with
  | some prev => zoomFit { st with current := some prev, history := st.history.dropLast } viewport
  | none => st

/-- Modelled from the wxWidgets documentation: `wxImage::GetSubImage`
returns the sub-image when the given rectangle lies entirely inside the
image and an invalid (absent) image otherwise. -/
def getSubImage (img : Raster) (r : Rect) : Option Raster :=
  if 0 ≤ r.x ∧ 0 ≤ r.y ∧ r.x + r.w ≤ (img.w : ℤ) ∧ r.y + r.h ≤ (img.h : ℤ) then
    some
      { w := r.w.toNat, h := r.h.toNat,
        data := (List.range (r.w.toNat * r.h.toNat)).map fun j =>
          img.pix (r.x.toNat + j % r.w.toNat) (r.y.toNat + j / r.w.toNat) }
  else none

/-- `ImagePanel::CopySelection`: when the selection is non-empty and an
image is present, assign `GetSubImage(selection)` to the clipboard
(note: no bounds check of the selection happens here). -/
def copySelection (st : PanelState) : PanelState :=
  match st.current with
  | some img =>
    if ¬ st.selection.isEmpty then { st with clipboard := getSubImage img st.selection }
    else st
  | none => st

/-- The pixel-level effect of the `PasteClipboard` double loop: each
clipboard pixel (x, y) is combined into destination (dest.x + x,
dest.y + y) with the chosen operator; destinations outside the image are
skipped; every other destination pixel keeps its value. -/
def pasteImage (img cb : Raster) (dest : ℤ × ℤ) (mode : BlendMode) : Raster :=
  { w := img.w, h := img.h,
    data := (List.range (img.w * img.h)).map fun j =>
      let dx : ℤ := (j % img.w : ℕ)
      let dy : ℤ := (j / img.w : ℕ)
      let sx := dx - dest.1
      let sy := dy - dest.2
      if 0 ≤ sx ∧ sx < (cb.w : ℤ) ∧ 0 ≤ sy ∧ sy < (cb.h : ℤ) then
        blendPix mode (img.data.getD j 0) (cb.data.getD (sy.toNat * cb.w + sx.toNat) 0)
      else img.data.getD j 0 }

/-- `ImagePanel::PasteClipboard`: no-op unless both the clipboard and the
current image are valid; otherwise composite and submit via `SetImage`. -/
def pasteClipboard (st : PanelState) (dest : ℤ × ℤ) (mode : BlendMode)
    (viewport : ℤ × ℤ) : PanelState :=
  match st.clipboard, st.current with
  | some cb, some img => setImage st (pasteImage img cb dest mode) viewport
  | _, _ => st

/-- The selection rectangle computed by both `OnMouseMove` and
`OnLeftUp`: corner-sort the start and current points, clamp the low
corner at 0, re-sort, and build an inclusive rectangle. -/
def selectionRect (s p : ℤ × ℤ) : Rect :=
  let x1 := max 0 (min s.1 p.1)
  let y1 := max 0 (min s.2 p.2)
  let x2 := max x1 (max s.1 p.1)
  let y2 := max y1 (max s.2 p.2)
  ⟨x1, y1, x2 - x1 + 1, y2 - y1 + 1⟩

/-- `ImagePanel::OnLeftDown`: record the (unscrolled) start point and
enter the selecting state. -/
def onLeftDown (st : PanelState) (p : ℤ × ℤ) : PanelState :=
  { st with startPoint := p, selecting := true }

/-- `ImagePanel::OnMouseMove` (selection part; the pixel-info status
line is display-only).  `dragging` and `leftDown` mirror
`event.Dragging()` and `event.LeftIsDown()`. -/
def onMouseMove (st : PanelState) (p : ℤ × ℤ) (dragging leftDown : Bool) : PanelState :=
  if dragging ∧ leftDown ∧ st.selecting then
    { st with selection := selectionRect st.startPoint p }
  else st

/-- `ImagePanel::OnLeftUp`: when selecting, finalize the selection with
the same computation as the move case and leave the selecting state. -/
def onLeftUp (st : PanelState) (p : ℤ × ℤ) : PanelState :=
  if st.selecting then
    { st with selection := selectionRect st.startPoint p, selecting := false }
  else st

/-- Session-level `LoadImage`: on any decode failure the method returns
early and the panel keeps its state; on success the decoded raster is
submitted through `SetImage`. -/
def loadImagePanel (st : PanelState) (s : ByteStream) (off w h : ℕ)
    (viewport : ℤ × ℤ) : PanelState :=
  match loadRaster s off w h with
  | .error _ => st
  | .ok img => setImage st img viewport

/-- `k` successive `SetImage` calls. -/
def applySetImages (st : PanelState) (imgs : List Raster) (viewport : ℤ × ℤ) : PanelState :=
  imgs.foldl (fun s i => setImage s i viewport) st

/-! ## RadialSampler (`CircularAverageNearest`, `ImageFrame::OnRadialSweep`)

The sampler's `double` arithmetic (the `PI` constant, `cos`, `sin`,
`lround`) is idealized over `ℝ`; `quiet_NaN()` results are `none`. -/

/-- `InBounds(x, y, w, h)` from the source. -/
abbrev InBounds (x y : ℤ) (w h : ℕ) : Prop :=
  0 ≤ x ∧ 0 ≤ y ∧ x < (w : ℤ) ∧ y < (h : ℤ)

/-- C `lround`: round to nearest integer, halfway cases away from zero. -/
noncomputable def lroundR (t : ℝ) : ℤ :=
  if 0 ≤ t then ⌊t + 1/2⌋ else ⌈t - 1/2⌉

/-- Number of sampled angles: `N = max(8, lround(2 * PI * R))`. -/
noncomputable def circN (R : ℤ) : ℕ :=
  max 8 (lroundR (2 * Real.pi * R)).toNat

/-- Rounded sample position number `k` of `N`:
`(lround(cx + R cos(2 pi k / N)), lround(cy + R sin(2 pi k / N)))`. -/
noncomputable def samplePt (cx cy R : ℤ) (N k : ℕ) : ℤ × ℤ :=
  (lroundR ((cx : ℝ) + (R : ℝ) * Real.cos (2 * Real.pi * k / N)),
   lroundR ((cy : ℝ) + (R : ℝ) * Real.sin (2 * Real.pi * k / N)))

/-- One iteration of the sampling loop: skip out-of-bounds rounded
positions, insert the visited pixel into the dedup set and accumulate
its grey value only when it was not seen before.  The source packs the
coordinates into a single 64-bit `unordered_set` key,
`(x << 32) ^ (unsigned)y`, which is injective on in-bounds coordinates,
so the set is modelled directly on coordinate pairs. -/
noncomputable def caStep (img : Raster) (cx cy R : ℤ) (N : ℕ)
    (st : Finset (ℤ × ℤ) × ℝ × ℕ) (k : ℕ) : Finset (ℤ × ℤ) × ℝ × ℕ :=
  let p := samplePt cx cy R N k
  if InBounds p.1 p.2 img.w img.h then
    if p ∈ st.1 then st
    else (insert p st.1, st.2.1 + (img.pixI p.1 p.2 : ℝ), st.2.2 + 1)
  else st

/-- The full sampling loop `for (k = 0; k < N; ++k)`, returning the
visited set, the intensity sum and the unique-sample count. -/
noncomputable def caLoop (img : Raster) (cx cy R : ℤ) (N : ℕ) : Finset (ℤ × ℤ) × ℝ × ℕ :=
  (List.range N).foldl (caStep img cx cy R N) (∅, 0, 0)

/-- `CircularAverageNearest`.  `sampleVar` is the caller's variable that
the out-parameter `outUniqueSamples` points at: the two early-out
returns leave it untouched (both call sites pass a variable initialized
to 0), while in the loop path it is always assigned the unique count
before the zero-count check. -/
noncomputable def circularAverageNearest (img : Raster) (cx cy R : ℤ)
    (sampleVar : ℕ) : Option ℝ × ℕ :=
  if (img.w = 0 ∨ img.h = 0) ∨ R ≤ 0 then (none, sampleVar)
  else if cx + R < 0 ∨ (img.w : ℤ) ≤ cx - R ∨ cy + R < 0 ∨ (img.h : ℤ) ≤ cy - R then
    (none, sampleVar)
  else
    let res := caLoop img cx cy R (circN R)
    if res.2.2 = 0 then (none, res.2.2)
    else (some (res.2.1 / (res.2.2 : ℝ)), res.2.2)

/-- Spec-side circular average, following the spec's words: sample
`N = max(8, round(2 pi R))` points at angles `2 pi k / N`, round to the
nearest integer pixel, discard positions outside the image, keep each
distinct pixel once, and return the arithmetic mean of the surviving
unique intensities together with their count, NaN (with count 0) when
none survive. -/
noncomputable def circularAverageSpec (img : Raster) (cx cy R : ℤ) : Option ℝ × ℕ :=
  let N := max 8 (lroundR (2 * Real.pi * R)).toNat
  let S : Finset (ℤ × ℤ) :=
    ((Finset.range N).image (samplePt cx cy R N)).filter
      fun p => InBounds p.1 p.2 img.w img.h
  if S.card = 0 then (none, 0)
  else (some ((∑ p ∈ S, (img.pixI p.1 p.2 : ℝ)) / (S.card : ℝ)), S.card)

/-- One entry of the radial profile (`RadialAvgPoint`). -/
structure RadialAvgPoint where
  R : ℤ
  avg : Option ℝ
  samples : ℕ

/-- One iteration of the sweep loop: call `CircularAverageNearest` with
a fresh `samples = 0`, then append `(R, avg, samples)` when the average
is finite with a positive count, `(R, NaN, samples)` otherwise. -/
noncomputable def sweepPoint (img : Raster) (cx cy R : ℤ) : RadialAvgPoint :=
  let res := circularAverageNearest img cx cy R 0
  match res.1 with
  | some a => if 0 < res.2 then ⟨R, some a, res.2⟩ else ⟨R, none, res.2⟩
  | none => ⟨R, none, res.2⟩

/-- The sweep loop of `OnRadialSweep`:
`for (R = Rmin; R <= Rmax; R += step)`.  The proof argument `hstep`
records the caller-validated `step > 0` that makes the C++ loop
terminate. -/
noncomputable def sweepAux (img : Raster) (cx cy Rmax step : ℤ) (hstep : 0 < step)
    (R : ℤ) : List RadialAvgPoint :=
  if h : R ≤ Rmax then
    sweepPoint img cx cy R :: sweepAux img cx cy Rmax step hstep (R + step)
  else []
termination_by (Rmax + 1 - R).toNat
decreasing_by
  have hRle : R + 1 ≤ Rmax + 1 := by omega
  omega

/-- `OnRadialSweep` after input parsing, generalized over the sweep
center (the source fixes it to the image center): reject
`step <= 0 || Rmax < Rmin`, else run the sweep loop from `Rmin`. -/
noncomputable def radialSweep (img : Raster) (cx cy Rmin Rmax step : ℤ) :
    Option (List RadialAvgPoint) :=
  if h : step ≤ 0 ∨ Rmax < Rmin then none
  else some (sweepAux img cx cy Rmax step (by omega) Rmin)

/-- The source's sweep call with the image-center choice
`cx = width / 2`, `cy = height / 2`. -/
noncomputable def onRadialSweep (img : Raster) (Rmin Rmax step : ℤ) :
    Option (List RadialAvgPoint) :=
  radialSweep img ((img.w : ℤ) / 2) ((img.h : ℤ) / 2) Rmin Rmax step

/-! ## Concrete fixtures used by witnesses and counterexamples -/

/-- A 4-by-4 all-grey-7 image. -/
def img4 : Raster := ⟨4, 4, List.replicate 16 7⟩

/-- A 2-by-2 image. -/
def img2 : Raster := ⟨2, 2, [1, 2, 3, 4]⟩

/-- A 1-by-1 clipboard content. -/
def cb1 : Raster := ⟨1, 1, [5]⟩

/-- A 10-by-10 all-grey-5 image. -/
def img10 : Raster := ⟨10, 10, List.replicate 100 5⟩

/-- Intensity of the current image at (x, y), 0 when no image is loaded. -/
def PanelState.curPix (st : PanelState) (x y : ℕ) : ℕ :=
  match st.current with
  | some img => img.pix x y
  | none => 0

/-- The rectangle lies fully within the image bounds. -/
abbrev rectInside (r : Rect) (img : Raster) : Prop :=
  0 ≤ r.x ∧ 0 ≤ r.y ∧ r.x + r.w ≤ (img.w : ℤ) ∧ r.y + r.h ≤ (img.h : ℤ)

/-- The selection box claim C9 describes: the axis-aligned box spanning
the start point and the pointer, clamped to the image bounds. -/
def selectionRectClaimed (imgW imgH : ℕ) (s p : ℤ × ℤ) : Rect :=
  let x1 := max 0 (min s.1 p.1)
  let y1 := max 0 (min s.2 p.2)
  let x2 := min ((imgW : ℤ) - 1) (max s.1 p.1)
  let y2 := min ((imgH : ℤ) - 1) (max s.2 p.2)
  ⟨x1, y1, x2 - x1 + 1, y2 - y1 + 1⟩

/-- The amended description of the selection box: the inclusive
axis-aligned box spanning the two points with each coordinate clamped
below at 0; there is no clamping to the image's right/bottom edges. -/
def selectionBoxAmended (s p : ℤ × ℤ) : Rect :=
  ⟨max 0 (min s.1 p.1), max 0 (min s.2 p.2),
   max 0 (max s.1 p.1) - max 0 (min s.1 p.1) + 1,
   max 0 (max s.2 p.2) - max 0 (min s.2 p.2) + 1⟩

/-- A panel holding a 2-by-2 image, a previously copied clipboard and a
non-empty selection that extends past the image bounds. -/
def stClobber : PanelState :=
  { emptySession with
    current := some img2, clipboard := some cb1, selection := ⟨0, 0, 5, 5⟩ }

/-- A panel holding a 2-by-2 image in the middle of a selection drag
started at the origin. -/
def stDrag : PanelState :=
  { emptySession with
    current := some img2, selecting := true, startPoint := (0, 0) }

/-! ## Claim C3: early-out of the circular average -/

/-- C3 (amended): for every image and center, if the radius is
non-positive or the source's per-axis separation test holds
(`cx + R < 0 || cx - R >= w || cy + R < 0 || cy - R >= h`),
`CircularAverageNearest` returns NaN and the caller-side unique-sample
count stays 0 (both call sites pass a variable initialized to 0).  The
bare geometric condition "circle entirely outside the image bounds" is
not sufficient for this conclusion — see the counterexample below. -/
theorem circularAverage_earlyOut (img : Raster) (cx cy R : ℤ)
    (h : R ≤ 0 ∨ cx + R < 0 ∨ (img.w : ℤ) ≤ cx - R ∨ cy + R < 0 ∨ (img.h : ℤ) ≤ cy - R) :
    circularAverageNearest img cx cy R 0 = (none, 0) := by
  unfold circularAverageNearest
  rcases h with h | h
  · rw [if_pos (Or.inr h)]
  · by_cases h0 : (img.w = 0 ∨ img.h = 0) ∨ R ≤ 0
    · rw [if_pos h0]
    · rw [if_neg h0, if_pos h]

theorem circularAverage_earlyOut_witness :
    ((-3 : ℤ) ≤ 0 ∨ (2 : ℤ) + (-3) < 0 ∨ (img4.w : ℤ) ≤ 2 - (-3) ∨ (2 : ℤ) + (-3) < 0 ∨
      (img4.h : ℤ) ≤ 2 - (-3)) ∧
    circularAverageNearest img4 2 2 (-3) 0 = (none, 0) :=
  ⟨Or.inl (by decide), circularAverage_earlyOut img4 2 2 (-3) (Or.inl (by decide))⟩

/-! ## Claim C4: undersized input streams fail to decode -/

lemma loadRaster_error_panel (st : PanelState) (s : ByteStream) (off w h : ℕ)
    (viewport : ℤ × ℤ) (e : DecodeError) (he : loadRaster s off w h = .error e) :
    loadImagePanel st s off w h viewport = st := by
  unfold loadImagePanel
  rw [he]

/-- C4: a stream whose reported size is below `header_offset +
width*height*4` decodes to `TooSmall`; one whose reported size is large
enough but whose readable payload is short decodes to `Truncated`; in
either case no RasterBuffer is produced and `LoadImage` leaves the
panel's state (in particular its current image) unchanged. -/
theorem loadRaster_short_fails (s : ByteStream) (off w h : ℕ) (st : PanelState)
    (viewport : ℤ × ℤ) (hwh : 0 < w * h)
    (hlen : s.data.length < off + w * h * 4) :
    (∃ e, loadRaster s off w h = .error e) ∧
    (s.size < off + w * h * 4 → loadRaster s off w h = .error .tooSmall) ∧
    (off + w * h * 4 ≤ s.size → loadRaster s off w h = .error .truncated) ∧
    loadImagePanel st s off w h viewport = st := by
  have hmain : (s.size < off + w * h * 4 → loadRaster s off w h = .error .tooSmall) ∧
      (off + w * h * 4 ≤ s.size → loadRaster s off w h = .error .truncated) := by
    constructor
    · intro hsz
      unfold loadRaster
      by_cases h1 : s.size < off
      · rw [if_pos h1]
      · rw [if_neg h1, if_pos (by omega)]
    · intro hsz
      unfold loadRaster
      rw [if_neg (by omega), if_neg (by omega)]
      rw [if_pos]
      simp only [List.length_take, List.length_drop]
      omega
  have herr : ∃ e, loadRaster s off w h = .error e := by
    by_cases hsz : s.size < off + w * h * 4
    · exact ⟨.tooSmall, hmain.1 hsz⟩
    · exact ⟨.truncated, hmain.2 (by omega)⟩
  obtain ⟨e, he⟩ := herr
  exact ⟨⟨e, he⟩, hmain.1, hmain.2, loadRaster_error_panel st s off w h viewport e he⟩

theorem loadRaster_short_fails_witness :
    0 < 1 * 1 ∧ (ByteStream.mk 10 [1, 2, 3]).data.length < 3 + 1 * 1 * 4 ∧
    ((∃ e, loadRaster ⟨10, [1, 2, 3]⟩ 3 1 1 = .error e) ∧
     ((ByteStream.mk 10 [1, 2, 3]).size < 3 + 1 * 1 * 4 →
        loadRaster ⟨10, [1, 2, 3]⟩ 3 1 1 = .error .tooSmall) ∧
     (3 + 1 * 1 * 4 ≤ (ByteStream.mk 10 [1, 2, 3]).size →
        loadRaster ⟨10, [1, 2, 3]⟩ 3 1 1 = .error .truncated) ∧
     loadImagePanel emptySession ⟨10, [1, 2, 3]⟩ 3 1 1 (9, 9) = emptySession) :=
  ⟨by decide, by decide,
    loadRaster_short_fails ⟨10, [1, 2, 3]⟩ 3 1 1 emptySession (9, 9) (by decide)
      (by decide)⟩

/-! ## Claim C5: pixel decoding, channel order and grey conversion -/

lemma getD_lt_256 (l : List ℕ) (i : ℕ) (hb : ∀ b ∈ l, b < 256) : l.getD i 0 < 256 := by
  rw [List.getD_eq_getElem?_getD]
  cases hl : l[i]? with
  | none => simp
  | some b => simpa using hb b (List.getElem?_mem hl)

lemma getD_drop_take (l : List ℕ) (off e idx : ℕ) (hidx : idx < e) :
    ((l.drop off).take e).getD idx 0 = l.getD (off + idx) 0 := by
  rw [List.getD_eq_getElem?_getD, List.getD_eq_getElem?_getD]
  rw [List.getElem?_take, if_pos hidx, List.getElem?_drop]

/-- C5: a sufficiently long byte stream decodes successfully, and the
produced buffer matches the spec-side description: pixel group `i` is
read in (B, G, R, A) byte order at offset `off + 4*i` and converted to
`round(0.299*R + 0.587*G + 0.114*B)` clamped to [0, 255]; in
particular, a stream holding R=255, G=0, B=0 at every pixel decodes to
intensity 76 everywhere, and R=G=B=200 decodes to 200 everywhere. -/
theorem loadRaster_grey_decode (s : ByteStream) (off w h : ℕ)
    (hsz : off + w * h * 4 ≤ s.size) (hlen : off + w * h * 4 ≤ s.data.length)
    (hbytes : ∀ b ∈ s.data, b < 256) :
    loadRaster s off w h = .ok (decodeSpec s off w h) ∧
    ((∀ i < w * h, s.data.getD (off + i * 4 + 2) 0 = 255 ∧
        s.data.getD (off + i * 4 + 1) 0 = 0 ∧ s.data.getD (off + i * 4) 0 = 0) →
      ∀ i < w * h, (decodeSpec s off w h).data.getD i 0 = 76) ∧
    ((∀ i < w * h, s.data.getD (off + i * 4 + 2) 0 = 200 ∧
        s.data.getD (off + i * 4 + 1) 0 = 200 ∧ s.data.getD (off + i * 4) 0 = 200) →
      ∀ i < w * h, (decodeSpec s off w h).data.getD i 0 = 200) := by
  refine ⟨?_, ?_, ?_⟩
  · unfold loadRaster
    rw [if_neg (by omega), if_neg (by omega)]
    rw [if_neg (by simp only [List.length_take, List.length_drop]; omega)]
    unfold decodeSpec
    simp only [Except.ok.injEq, Raster.mk.injEq, true_and]
    apply List.map_congr_left
    intro i hi
    rw [List.mem_range] at hi
    rw [getD_drop_take _ _ _ _ (by omega), getD_drop_take _ _ _ _ (by omega),
      getD_drop_take _ _ _ _ (by omega)]
    have e2 : off + (i * 4 + 2) = off + i * 4 + 2 := by omega
    have e1 : off + (i * 4 + 1) = off + i * 4 + 1 := by omega
    rw [e2, e1]
    exact greyOf_eq_greySpec _ _ _ (getD_lt_256 _ _ hbytes) (getD_lt_256 _ _ hbytes)
      (getD_lt_256 _ _ hbytes)
  · intro hred i hi
    unfold decodeSpec
    simp only
    rw [getD_range_map _ _ _ _ hi]
    obtain ⟨h2, h1, h0⟩ := hred i hi
    rw [h2, h1, h0]
    norm_num [greySpec]
    rfl
  · intro hgrey i hi
    unfold decodeSpec
    simp only
    rw [getD_range_map _ _ _ _ hi]
    obtain ⟨h2, h1, h0⟩ := hgrey i hi
    rw [h2, h1, h0]
    norm_num [greySpec]
    rfl

theorem loadRaster_grey_decode_witness :
    0 + 1 * 1 * 4 ≤ (ByteStream.mk 4 [10, 20, 30, 40]).size ∧
    0 + 1 * 1 * 4 ≤ (ByteStream.mk 4 [10, 20, 30, 40]).data.length ∧
    (∀ b ∈ (ByteStream.mk 4 [10, 20, 30, 40]).data, b < 256) ∧
    loadRaster ⟨4, [10, 20, 30, 40]⟩ 0 1 1 = .ok (decodeSpec ⟨4, [10, 20, 30, 40]⟩ 0 1 1) :=
  ⟨by decide, by decide, by decide,
    (loadRaster_grey_decode ⟨4, [10, 20, 30, 40]⟩ 0 1 1 (by decide) (by decide)
      (by decide)).1⟩


/-! ## Claim C10: zoom factor stays strictly positive -/

lemma applyZoom_skip (st : PanelState) (viewport : ℤ × ℤ) (hfit : st.fitMode = false) :
    applyZoom st viewport = st := by
  unfold applyZoom
  split
  · rfl
  · rw [if_neg]
    simp [hfit]

lemma applyZoom_fields (st : PanelState) (viewport : ℤ × ℤ) :
    (applyZoom st viewport).current = st.current ∧
    (applyZoom st viewport).history = st.history ∧
    (applyZoom st viewport).clipboard = st.clipboard ∧
    (applyZoom st viewport).fitMode = st.fitMode := by
  unfold applyZoom
  split
  · exact ⟨rfl, rfl, rfl, rfl⟩
  · split_ifs with hb
    · exact ⟨rfl, rfl, rfl, rfl⟩
    · exact ⟨rfl, rfl, rfl, rfl⟩

lemma applyZoom_fit_zoom (st : PanelState) (viewport : ℤ × ℤ) (img : Raster)
    (hcur : st.current = some img) (hfit : st.fitMode = true)
    (hw : 0 < img.w) (hh : 0 < img.h) :
    (applyZoom st viewport).zoomFactor =
      (if min ((viewport.1 : ℚ) / img.w) ((viewport.2 : ℚ) / img.h) ≤ 0 then 1
       else min ((viewport.1 : ℚ) / img.w) ((viewport.2 : ℚ) / img.h)) := by
  unfold applyZoom
  rw [hcur]
  dsimp only
  rw [if_pos ⟨hfit, hw, hh⟩]

/-- C10 (implicit): with a valid non-empty current image and a positive
stored zoom, every zoom operation leaves the zoom factor strictly
positive; and in fit mode, when `min(viewport.x / w, viewport.y / h)`
is non-positive (for instance a zero-sized viewport), `ApplyZoom`
resets the factor to 1.0 rather than storing the non-positive value. -/
theorem zoom_positive (st : PanelState) (viewport : ℤ × ℤ) (img : Raster)
    (hcur : st.current = some img) (hw : 0 < img.w) (hh : 0 < img.h)
    (hz : 0 < st.zoomFactor) :
    0 < (zoomIn st viewport).zoomFactor ∧
    0 < (zoomOut st viewport).zoomFactor ∧
    0 < (zoomFit st viewport).zoomFactor ∧
    (min ((viewport.1 : ℚ) / img.w) ((viewport.2 : ℚ) / img.h) ≤ 0 →
      (zoomFit st viewport).zoomFactor = 1) := by
  have hfitz : (zoomFit st viewport).zoomFactor =
      (if min ((viewport.1 : ℚ) / img.w) ((viewport.2 : ℚ) / img.h) ≤ 0 then 1
       else min ((viewport.1 : ℚ) / img.w) ((viewport.2 : ℚ) / img.h)) := by
    unfold zoomFit
    exact applyZoom_fit_zoom _ viewport img hcur rfl hw hh
  refine ⟨?_, ?_, ?_, ?_⟩
  · unfold zoomIn
    rw [applyZoom_skip _ _ rfl]
    have h12 : (0 : ℚ) < 1.2 := by norm_num
    simpa using mul_pos hz h12
  · unfold zoomOut
    rw [applyZoom_skip _ _ rfl]
    dsimp only
    split_ifs with hlt
    · norm_num
    · push_neg at hlt
      have h001 : (0 : ℚ) < 0.01 := by norm_num
      linarith
  · rw [hfitz]
    split_ifs with hle
    · norm_num
    · push_neg at hle
      exact hle
  · intro hmin
    rw [hfitz, if_pos hmin]

theorem zoom_positive_witness :
    ({ emptySession with current := some img2 } : PanelState).current = some img2 ∧
    0 < img2.w ∧ 0 < img2.h ∧
    0 < ({ emptySession with current := some img2 } : PanelState).zoomFactor ∧
    0 < (zoomIn { emptySession with current := some img2 } (0, 5)).zoomFactor :=
  ⟨rfl, by decide, by decide, by norm_num [emptySession],
    (zoom_positive { emptySession with current := some img2 } (0, 5) img2 rfl
      (by decide) (by decide) (by norm_num [emptySession])).1⟩

/-! ## Claim C6: bounded undo history -/

lemma zoomFit_fields (st : PanelState) (v : ℤ × ℤ) :
    (zoomFit st v).current = st.current ∧ (zoomFit st v).history = st.history ∧
    (zoomFit st v).clipboard = st.clipboard := by
  unfold zoomFit
  obtain ⟨h1, h2, h3, h4⟩ := applyZoom_fields { st with fitMode := true } v
  exact ⟨h1, h2, h3⟩

lemma setImage_current (st : PanelState) (img : Raster) (v : ℤ × ℤ) :
    (setImage st img v).current = some img := by
  unfold setImage
  cases hcur : st.current with
  | none => exact (zoomFit_fields _ v).1
  | some cur => exact (zoomFit_fields _ v).1

lemma setImage_clipboard (st : PanelState) (img : Raster) (v : ℤ × ℤ) :
    (setImage st img v).clipboard = st.clipboard := by
  unfold setImage
  cases hcur : st.current with
  | none => exact (zoomFit_fields _ v).2.2
  | some cur => exact (zoomFit_fields _ v).2.2

lemma setImage_history_none (st : PanelState) (img : Raster) (v : ℤ × ℤ)
    (hcur : st.current = none) : (setImage st img v).history = st.history := by
  unfold setImage
  rw [hcur]
  exact (zoomFit_fields _ v).2.1

lemma setImage_history_some (st : PanelState) (img cur : Raster) (v : ℤ × ℤ)
    (hcur : st.current = some cur) :
    (setImage st img v).history.length =
      if MAX_HISTORY < st.history.length + 1 then st.history.length
      else st.history.length + 1 := by
  unfold setImage
  rw [hcur]
  dsimp only
  rw [(zoomFit_fields _ v).2.1]
  dsimp only
  simp only [List.length_append, List.length_cons, List.length_nil, Nat.zero_add]
  split_ifs with hgt
  · simp
  · simp

lemma setImage_history_len_le (st : PanelState) (img : Raster) (v : ℤ × ℤ)
    (hle : st.history.length ≤ MAX_HISTORY) :
    (setImage st img v).history.length ≤ MAX_HISTORY := by
  cases hcur : st.current with
  | none => rw [setImage_history_none st img v hcur]; exact hle
  | some cur =>
    rw [setImage_history_some st img cur v hcur]
    split_ifs <;> omega

lemma applySetImages_len (imgs : List Raster) :
    ∀ (st : PanelState) (v : ℤ × ℤ) (cur : Raster), st.current = some cur →
      st.history.length ≤ MAX_HISTORY →
      (applySetImages st imgs v).history.length =
        min (st.history.length + imgs.length) MAX_HISTORY := by
  induction imgs with
  | nil =>
    intro st v cur hcur hle
    simp only [applySetImages, List.foldl_nil, List.length_nil, Nat.add_zero]
    omega
  | cons i rest ih =>
    intro st v cur hcur hle
    have hfold : applySetImages st (i :: rest) v = applySetImages (setImage st i v) rest v := rfl
    rw [hfold]
    have hlen1 := setImage_history_some st i cur v hcur
    have hle1 : (setImage st i v).history.length ≤ MAX_HISTORY :=
      setImage_history_len_le st i v hle
    rw [ih (setImage st i v) v i (setImage_current st i v) hle1, hlen1]
    simp only [List.length_cons]
    unfold MAX_HISTORY at *
    split_ifs <;> omega

lemma undo_history_len (st : PanelState) (v : ℤ × ℤ) :
    (undo st v).history.length ≤ st.history.length := by
  unfold undo
  cases hl : st.history.getLast? with
  | none => exact le_refl _
  | some prev =>
    dsimp only
    rw [(zoomFit_fields _ v).2.1]
    simp [List.length_dropLast]

/-- C6: starting from an empty session, the history length after the
k-th `SetImage` call is exactly `min(k-1, 16)`; and every modelled
operation preserves the invariant `history.length <= MAX_HISTORY`
(`SetImage` pushes the previous current image only when one exists and
drops the oldest snapshot when the stack exceeds capacity). -/
theorem history_bounded :
    (∀ (imgs : List Raster) (v : ℤ × ℤ), 1 ≤ imgs.length →
      (applySetImages emptySession imgs v).history.length =
        min (imgs.length - 1) MAX_HISTORY) ∧
    (∀ (st : PanelState) (img : Raster) (v : ℤ × ℤ), st.history.length ≤ MAX_HISTORY →
      (setImage st img v).history.length ≤ MAX_HISTORY) ∧
    (∀ (st : PanelState) (v : ℤ × ℤ), st.history.length ≤ MAX_HISTORY →
      (undo st v).history.length ≤ MAX_HISTORY) ∧
    (∀ (st : PanelState) (dest : ℤ × ℤ) (mode : BlendMode) (v : ℤ × ℤ),
      st.history.length ≤ MAX_HISTORY →
      (pasteClipboard st dest mode v).history.length ≤ MAX_HISTORY) ∧
    (∀ st : PanelState, st.history.length ≤ MAX_HISTORY →
      (copySelection st).history.length ≤ MAX_HISTORY) ∧
    (∀ (st : PanelState) (s : ByteStream) (off w h : ℕ) (v : ℤ × ℤ),
      st.history.length ≤ MAX_HISTORY →
      (loadImagePanel st s off w h v).history.length ≤ MAX_HISTORY) := by
  refine ⟨?_, ?_, ?_, ?_, ?_, ?_⟩
  · intro imgs v hk
    cases imgs with
    | nil => simp at hk
    | cons i rest =>
      have hfold : applySetImages emptySession (i :: rest) v =
          applySetImages (setImage emptySession i v) rest v := rfl
      rw [hfold]
      have h0 : (setImage emptySession i v).history = [] :=
        setImage_history_none emptySession i v rfl
      rw [applySetImages_len rest (setImage emptySession i v) v i
        (setImage_current emptySession i v) (by rw [h0]; simp [MAX_HISTORY])]
      rw [h0]
      simp
  · intro st img v hle
    exact setImage_history_len_le st img v hle
  · intro st v hle
    exact le_trans (undo_history_len st v) hle
  · intro st dest mode v hle
    unfold pasteClipboard
    cases hcb : st.clipboard with
    | none => exact hle
    | some cb =>
      cases hcur : st.current with
      | none => exact hle
      | some img =>
        dsimp only
        exact setImage_history_len_le st _ v hle
  · intro st hle
    unfold copySelection
    cases hcur : st.current with
    | none => exact hle
    | some img =>
      dsimp only
      split_ifs with hsel
      · exact hle
      · exact hle
  · intro st s off w h v hle
    unfold loadImagePanel
    cases hres : loadRaster s off w h with
    | error e => exact hle
    | ok img =>
      dsimp only
      exact setImage_history_len_le st img v hle

theorem history_bounded_witness :
    1 ≤ ([img2] : List Raster).length ∧
    (applySetImages emptySession [img2] (7, 7)).history.length =
      min (([img2] : List Raster).length - 1) MAX_HISTORY :=
  ⟨by decide, history_bounded.1 [img2] (7, 7) (by decide)⟩

/-! ## Claim C7: XOR paste is self-inverse -/

lemma pasteImage_pix (img cb : Raster) (dest : ℤ × ℤ) (mode : BlendMode)
    (x y : ℕ) (hx : x < img.w) (hy : y < img.h) :
    (pasteImage img cb dest mode).pix x y =
      (if 0 ≤ (x : ℤ) - dest.1 ∧ (x : ℤ) - dest.1 < (cb.w : ℤ) ∧
          0 ≤ (y : ℤ) - dest.2 ∧ (y : ℤ) - dest.2 < (cb.h : ℤ) then
        blendPix mode (img.pix x y)
          (cb.data.getD (((y : ℤ) - dest.2).toNat * cb.w + ((x : ℤ) - dest.1).toNat) 0)
      else img.pix x y) := by
  have hj : y * img.w + x < img.w * img.h := by
    calc y * img.w + x < y * img.w + img.w := by omega
      _ = (y + 1) * img.w := by ring
      _ ≤ img.h * img.w := Nat.mul_le_mul_right _ hy
      _ = img.w * img.h := Nat.mul_comm _ _
  have hmod : (y * img.w + x) % img.w = x := by
    rw [Nat.add_comm, Nat.add_mul_mod_self_right, Nat.mod_eq_of_lt hx]
  have hdiv : (y * img.w + x) / img.w = y := by
    rw [Nat.add_comm, Nat.add_mul_div_right _ _ (by omega : 0 < img.w),
      Nat.div_eq_of_lt hx]
    omega
  unfold pasteImage Raster.pix
  dsimp only
  rw [getD_range_map _ _ _ _ hj]
  rw [hmod, hdiv]

lemma pasteImage_xor_xor (img cb : Raster) (dest : ℤ × ℤ) (x y : ℕ)
    (hx : x < img.w) (hy : y < img.h) :
    (pasteImage (pasteImage img cb dest .opXor) cb dest .opXor).pix x y = img.pix x y := by
  rw [pasteImage_pix (pasteImage img cb dest .opXor) cb dest .opXor x y hx hy]
  rw [pasteImage_pix img cb dest .opXor x y hx hy]
  split_ifs with hc
  · simp only [blendPix]
    rw [Nat.xor_assoc, Nat.xor_self, Nat.xor_zero]
  · rfl

lemma pasteClipboard_some (st : PanelState) (dest : ℤ × ℤ) (mode : BlendMode)
    (viewport : ℤ × ℤ) (cb img : Raster) (hcb : st.clipboard = some cb)
    (hcur : st.current = some img) :
    pasteClipboard st dest mode viewport =
      setImage st (pasteImage img cb dest mode) viewport := by
  unfold pasteClipboard
  rw [hcb, hcur]

/-- C7: pasting the clipboard with XOR and then pasting the identical
clipboard at the identical destination with XOR again (with nothing
changing in between) restores every in-bounds destination pixel to its
pre-paste intensity. -/
theorem paste_xor_involutive (st : PanelState) (dest viewport : ℤ × ℤ)
    (cb img : Raster) (hcb : st.clipboard = some cb) (hcur : st.current = some img)
    (x y : ℕ) (hx : x < img.w) (hy : y < img.h) :
    (pasteClipboard (pasteClipboard st dest .opXor viewport) dest .opXor viewport).curPix
      x y = img.pix x y := by
  have h1 : pasteClipboard st dest .opXor viewport =
      setImage st (pasteImage img cb dest .opXor) viewport :=
    pasteClipboard_some st dest .opXor viewport cb img hcb hcur
  have hcur1 : (pasteClipboard st dest .opXor viewport).current =
      some (pasteImage img cb dest .opXor) := by
    rw [h1]
    exact setImage_current _ _ _
  have hcb1 : (pasteClipboard st dest .opXor viewport).clipboard = some cb := by
    rw [h1, setImage_clipboard]
    exact hcb
  have h2 : pasteClipboard (pasteClipboard st dest .opXor viewport) dest .opXor viewport =
      setImage (pasteClipboard st dest .opXor viewport)
        (pasteImage (pasteImage img cb dest .opXor) cb dest .opXor) viewport :=
    pasteClipboard_some _ dest .opXor viewport cb _ hcb1 hcur1
  rw [h2]
  unfold PanelState.curPix
  rw [setImage_current]
  exact pasteImage_xor_xor img cb dest x y hx hy

theorem paste_xor_involutive_witness :
    stClobber.clipboard = some cb1 ∧ stClobber.current = some img2 ∧
    0 < img2.w ∧ 0 < img2.h ∧
    (pasteClipboard (pasteClipboard stClobber (0, 0) .opXor (9, 9)) (0, 0) .opXor
      (9, 9)).curPix 0 0 = img2.pix 0 0 :=
  ⟨rfl, rfl, by decide, by decide,
    paste_xor_involutive stClobber (0, 0) (9, 9) cb1 img2 rfl rfl 0 0 (by decide)
      (by decide)⟩

/-! ## Claim C8: copy-selection and the clipboard -/

/-- C8 counterexample: with a 2-by-2 image, a previously copied
clipboard, and the non-empty selection (0, 0, 5, 5) that is not fully
inside the bounds, `CopySelection` does not leave the clipboard
unchanged: `GetSubImage` fails on the oversized rectangle and the
assignment clears the clipboard. -/
theorem copySelection_clobbers :
    ¬ stClobber.selection.isEmpty ∧ stClobber.current = some img2 ∧
    ¬ rectInside stClobber.selection img2 ∧
    (copySelection stClobber).clipboard = none ∧
    stClobber.clipboard = some cb1 ∧
    (copySelection stClobber).clipboard ≠ stClobber.clipboard := by
  refine ⟨by decide, rfl, by decide, by decide, rfl, by decide⟩

/-- C8 (amended): `CopySelection` extracts the sub-buffer into the
clipboard exactly when the selection is non-empty, an image is present
and the rectangle lies fully within the image bounds; an empty
selection (or absent image) is a no-op; but a non-empty selection not
fully within the bounds overwrites the clipboard with an invalid
(absent) image instead of leaving it unchanged. -/
theorem copySelection_cases (st : PanelState) :
    (st.current = none → copySelection st = st) ∧
    (st.selection.isEmpty → copySelection st = st) ∧
    (∀ img : Raster, st.current = some img → ¬ st.selection.isEmpty →
      ((rectInside st.selection img →
          (copySelection st).clipboard = getSubImage img st.selection ∧
          (getSubImage img st.selection).isSome = true) ∧
       (¬ rectInside st.selection img → (copySelection st).clipboard = none))) := by
  refine ⟨?_, ?_, ?_⟩
  · intro hnone
    unfold copySelection
    rw [hnone]
  · intro hemp
    unfold copySelection
    cases hcur : st.current with
    | none => rfl
    | some img =>
      dsimp only
      rw [if_neg (not_not_intro hemp)]
  · intro img hcur hne
    constructor
    · intro hins
      constructor
      · unfold copySelection
        rw [hcur]
        dsimp only
        rw [if_pos hne]
      · unfold getSubImage
        rw [if_pos hins]
        rfl
    · intro hout
      unfold copySelection
      rw [hcur]
      dsimp only
      rw [if_pos hne]
      show getSubImage img st.selection = none
      unfold getSubImage
      rw [if_neg hout]

theorem copySelection_cases_witness :
    emptySession.selection.isEmpty ∧ copySelection emptySession = emptySession :=
  ⟨by decide, (copySelection_cases emptySession).2.1 (by decide)⟩

/-! ## Claim C9: selection rectangle transitions -/

/-- C9 counterexample: dragging from (0, 0) to (10, 10) over a 2-by-2
image produces the selection (0, 0, 11, 11), not the box clamped to the
image bounds that the claim describes — the handlers clamp only at the
origin, never to the image's right/bottom edges. -/
theorem selection_not_clamped :
    stDrag.selecting = true ∧ stDrag.current = some img2 ∧
    (onMouseMove stDrag (10, 10) true true).selection = ⟨0, 0, 11, 11⟩ ∧
    (onMouseMove stDrag (10, 10) true true).selection ≠
      selectionRectClaimed img2.w img2.h stDrag.startPoint (10, 10) ∧
    (onLeftUp stDrag (10, 10)).selection ≠
      selectionRectClaimed img2.w img2.h stDrag.startPoint (10, 10) := by
  refine ⟨rfl, rfl, by decide, by decide, by decide⟩

/-- C9 (amended): while a drag is in progress, `OnMouseMove` and
`OnLeftUp` both set the selection to the inclusive axis-aligned box
spanning the start point and the pointer with each coordinate clamped
below at 0 (no clamping to the image's right/bottom edges, minimum size
1-by-1), and `OnLeftUp` finalizes identically to the move case and
leaves the selecting state. -/
theorem selection_transitions (st : PanelState) (p : ℤ × ℤ) (hsel : st.selecting = true) :
    (onMouseMove st p true true).selection = selectionBoxAmended st.startPoint p ∧
    (onLeftUp st p).selection = selectionBoxAmended st.startPoint p ∧
    (onLeftUp st p).selecting = false ∧
    (onMouseMove st p true true).selection = (onLeftUp st p).selection ∧
    1 ≤ (onLeftUp st p).selection.w ∧ 1 ≤ (onLeftUp st p).selection.h := by
  have key : selectionRect st.startPoint p = selectionBoxAmended st.startPoint p := by
    unfold selectionRect selectionBoxAmended
    dsimp only
    simp only [Rect.mk.injEq]
    refine ⟨?_, ?_, ?_, ?_⟩ <;> first
    | trivial
    | omega
  have hmove : (onMouseMove st p true true).selection = selectionBoxAmended st.startPoint p := by
    unfold onMouseMove
    rw [if_pos (by simp [hsel])]
    exact key
  have hup : onLeftUp st p =
      { st with selection := selectionRect st.startPoint p, selecting := false } := by
    unfold onLeftUp
    rw [if_pos (by simp [hsel])]
  refine ⟨hmove, ?_, ?_, ?_, ?_, ?_⟩
  · rw [hup]
    exact key
  · rw [hup]
  · rw [hmove, hup]
    exact key.symm
  · rw [hup]
    show 1 ≤ (selectionRect st.startPoint p).w
    unfold selectionRect
    dsimp only
    omega
  · rw [hup]
    show 1 ≤ (selectionRect st.startPoint p).h
    unfold selectionRect
    dsimp only
    omega

theorem selection_transitions_witness :
    stDrag.selecting = true ∧
    (onMouseMove stDrag (3, 4) true true).selection =
      selectionBoxAmended stDrag.startPoint (3, 4) :=
  ⟨rfl, (selection_transitions stDrag (3, 4) rfl).1⟩

/-! ## Claim C1: the radial sweep profile -/

lemma ca_fst_some_pos (img : Raster) (cx cy R : ℤ) (sv : ℕ) (a : ℝ)
    (h : (circularAverageNearest img cx cy R sv).1 = some a) :
    0 < (circularAverageNearest img cx cy R sv).2 := by
  unfold circularAverageNearest at h ⊢
  by_cases h1 : (img.w = 0 ∨ img.h = 0) ∨ R ≤ 0
  · rw [if_pos h1] at h
    simp at h
  · rw [if_neg h1] at h ⊢
    by_cases h2 : cx + R < 0 ∨ (img.w : ℤ) ≤ cx - R ∨ cy + R < 0 ∨ (img.h : ℤ) ≤ cy - R
    · rw [if_pos h2] at h
      simp at h
    · rw [if_neg h2] at h ⊢
      dsimp only at h ⊢
      by_cases h3 : (caLoop img cx cy R (circN R)).2.2 = 0
      · rw [if_pos h3] at h
        simp at h
      · rw [if_neg h3]
        dsimp only
        omega

lemma sweepPoint_eq (img : Raster) (cx cy R : ℤ) :
    sweepPoint img cx cy R =
      ⟨R, (circularAverageNearest img cx cy R 0).1,
        (circularAverageNearest img cx cy R 0).2⟩ := by
  unfold sweepPoint
  dsimp only
  cases hres : (circularAverageNearest img cx cy R 0).1 with
  | none => rfl
  | some a =>
    dsimp only
    rw [if_pos (ca_fst_some_pos img cx cy R 0 a hres)]

lemma sweepAux_step (img : Raster) (cx cy Rmax step : ℤ) (hstep : 0 < step) (R : ℤ) :
    sweepAux img cx cy Rmax step hstep R =
      if R ≤ Rmax then
        sweepPoint img cx cy R :: sweepAux img cx cy Rmax step hstep (R + step)
      else [] := by
  rw [sweepAux]
  split_ifs <;> rfl

lemma sweepAux_spec (img : Raster) (cx cy Rmax step : ℤ) (hstep : 0 < step) :
    ∀ (n : ℕ) (R : ℤ), (Rmax + 1 - R).toNat ≤ n → R ≤ Rmax →
      (sweepAux img cx cy Rmax step hstep R).length = ((Rmax - R) / step).toNat + 1 ∧
      ∀ i : ℕ, i < (sweepAux img cx cy Rmax step hstep R).length →
        (sweepAux img cx cy Rmax step hstep R).getD i ⟨0, none, 0⟩ =
          sweepPoint img cx cy (R + i * step) := by
  intro n
  induction n with
  | zero =>
    intro R hn hR
    omega
  | succ m ih =>
    intro R hn hR
    rw [sweepAux_step img cx cy Rmax step hstep R, if_pos hR]
    by_cases hnext : R + step ≤ Rmax
    · obtain ⟨ihlen, ihget⟩ := ih (R + step) (by omega) hnext
      have harith : (Rmax - R) / step = (Rmax - (R + step)) / step + 1 := by
        have hre : Rmax - (R + step) = Rmax - R + (-1) * step := by ring
        rw [hre, Int.add_mul_ediv_right _ _ (by omega : step ≠ 0)]
        ring
      have hnn : 0 ≤ (Rmax - (R + step)) / step :=
        Int.ediv_nonneg (by omega) (by omega)
      constructor
      · rw [List.length_cons, ihlen]
        omega
      · intro i hi
        cases i with
        | zero =>
          rw [List.getD_cons_zero]
          norm_num
        | succ i' =>
          rw [List.getD_cons_succ]
          rw [List.length_cons] at hi
          rw [ihget i' (by omega)]
          have hcast : R + step + (i' : ℤ) * step = R + ((i' + 1 : ℕ) : ℤ) * step := by
            push_cast
            ring
          rw [hcast]
    · have hempty : sweepAux img cx cy Rmax step hstep (R + step) = [] := by
        rw [sweepAux_step img cx cy Rmax step hstep (R + step), if_neg hnext]
      have hz : (Rmax - R) / step = 0 :=
        Int.ediv_eq_zero_of_lt (by omega) (by omega)
      rw [hempty]
      constructor
      · rw [hz]
        rfl
      · intro i hi
        simp only [List.length_cons, List.length_nil] at hi
        have hi0 : i = 0 := by omega
        subst hi0
        rw [List.getD_cons_zero]
        norm_num

/-- C1: for every image, center, and validated sweep parameters
(`step > 0`, `Rmax >= Rmin`), the sweep produces a profile whose i-th
point has radius exactly `Rmin + i*step` (so radii increase strictly),
whose length is exactly `floor((Rmax - Rmin) / step) + 1`, and whose
i-th entry carries exactly the average (NaN retained, not dropped) and
unique-sample count of `CircularAverageNearest` at that radius. -/
theorem radialSweep_profile (img : Raster) (cx cy Rmin Rmax step : ℤ)
    (hstep : 0 < step) (hrange : Rmin ≤ Rmax) :
    ∃ l, radialSweep img cx cy Rmin Rmax step = some l ∧
      l.length = ((Rmax - Rmin) / step).toNat + 1 ∧
      (∀ i : ℕ, i < l.length →
        l.getD i ⟨0, none, 0⟩ =
          ⟨Rmin + i * step, (circularAverageNearest img cx cy (Rmin + i * step) 0).1,
            (circularAverageNearest img cx cy (Rmin + i * step) 0).2⟩) ∧
      (∀ i j : ℕ, i < j → j < l.length →
        (l.getD i ⟨0, none, 0⟩).R < (l.getD j ⟨0, none, 0⟩).R) := by
  obtain ⟨hlen, hget⟩ :=
    sweepAux_spec img cx cy Rmax step hstep (Rmax + 1 - Rmin).toNat Rmin (le_refl _) hrange
  refine ⟨sweepAux img cx cy Rmax step hstep Rmin, ?_, hlen, ?_, ?_⟩
  · unfold radialSweep
    rw [dif_neg (by omega)]
  · intro i hi
    rw [hget i hi, sweepPoint_eq]
  · intro i j hij hj
    rw [hget i (by omega), hget j hj, sweepPoint_eq, sweepPoint_eq]
    show Rmin + (i : ℤ) * step < Rmin + (j : ℤ) * step
    have hij' : (i : ℤ) < (j : ℤ) := by exact_mod_cast hij
    have := mul_lt_mul_of_pos_right hij' hstep
    omega

theorem radialSweep_profile_witness :
    (0 : ℤ) < 5 ∧ (0 : ℤ) ≤ 23 ∧
    (∃ l, radialSweep img4 2 2 0 23 5 = some l ∧
      l.length = (((23 : ℤ) - 0) / 5).toNat + 1 ∧
      (∀ i : ℕ, i < l.length →
        l.getD i ⟨0, none, 0⟩ =
          ⟨0 + i * 5, (circularAverageNearest img4 2 2 (0 + i * 5) 0).1,
            (circularAverageNearest img4 2 2 (0 + i * 5) 0).2⟩) ∧
      (∀ i j : ℕ, i < j → j < l.length →
        (l.getD i ⟨0, none, 0⟩).R < (l.getD j ⟨0, none, 0⟩).R)) :=
  ⟨by decide, by decide, radialSweep_profile img4 2 2 0 23 5 (by decide) (by decide)⟩

/-! ## Claim C2: the circular average refines its specification -/

lemma caLoop_invariant (img : Raster) (cx cy R : ℤ) (N : ℕ) (l : List ℕ) :
    ∀ (V : Finset (ℤ × ℤ)) (s : ℝ) (c : ℕ),
      s = ∑ p ∈ V, (img.pixI p.1 p.2 : ℝ) → c = V.card →
      (l.foldl (caStep img cx cy R N) (V, s, c)).1 =
        V ∪ (l.toFinset.image (samplePt cx cy R N)).filter
            (fun p => InBounds p.1 p.2 img.w img.h) ∧
      (l.foldl (caStep img cx cy R N) (V, s, c)).2.1 =
        ∑ p ∈ (l.foldl (caStep img cx cy R N) (V, s, c)).1, (img.pixI p.1 p.2 : ℝ) ∧
      (l.foldl (caStep img cx cy R N) (V, s, c)).2.2 =
        (l.foldl (caStep img cx cy R N) (V, s, c)).1.card := by
  induction l with
  | nil =>
    intro V s c hs hc
    refine ⟨?_, ?_, ?_⟩ <;> simp [hs, hc]
  | cons k l ih =>
    intro V s c hs hc
    rw [List.foldl_cons]
    by_cases hin : InBounds (samplePt cx cy R N k).1 (samplePt cx cy R N k).2 img.w img.h
    · by_cases hmem : samplePt cx cy R N k ∈ V
      · have hstep : caStep img cx cy R N (V, s, c) k = (V, s, c) := by
          unfold caStep
          dsimp only
          rw [if_pos hin, if_pos hmem]
        rw [hstep]
        obtain ⟨h1, h2, h3⟩ := ih V s c hs hc
        refine ⟨?_, h2, h3⟩
        rw [h1, List.toFinset_cons, Finset.image_insert, Finset.filter_insert, if_pos hin]
        rw [Finset.union_insert]
        exact (Finset.insert_eq_self.mpr (Finset.mem_union_left _ hmem)).symm
      · have hstep : caStep img cx cy R N (V, s, c) k =
            (insert (samplePt cx cy R N k) V,
             s + (img.pixI (samplePt cx cy R N k).1 (samplePt cx cy R N k).2 : ℝ),
             c + 1) := by
          unfold caStep
          dsimp only
          rw [if_pos hin, if_neg hmem]
        rw [hstep]
        have hs' : s + (img.pixI (samplePt cx cy R N k).1 (samplePt cx cy R N k).2 : ℝ) =
            ∑ p ∈ insert (samplePt cx cy R N k) V, (img.pixI p.1 p.2 : ℝ) := by
          rw [Finset.sum_insert hmem, ← hs]
          ring
        have hc' : c + 1 = (insert (samplePt cx cy R N k) V).card := by
          rw [Finset.card_insert_of_not_mem hmem, hc]
        obtain ⟨h1, h2, h3⟩ := ih (insert (samplePt cx cy R N k) V) _ _ hs' hc'
        refine ⟨?_, h2, h3⟩
        rw [h1, List.toFinset_cons, Finset.image_insert, Finset.filter_insert, if_pos hin]
        rw [Finset.insert_union, Finset.union_insert]
    · have hstep : caStep img cx cy R N (V, s, c) k = (V, s, c) := by
        unfold caStep
        dsimp only
        rw [if_neg hin]
      rw [hstep]
      obtain ⟨h1, h2, h3⟩ := ih V s c hs hc
      refine ⟨?_, h2, h3⟩
      rw [h1, List.toFinset_cons, Finset.image_insert, Finset.filter_insert, if_neg hin]

lemma caLoop_spec (img : Raster) (cx cy R : ℤ) (N : ℕ) :
    (caLoop img cx cy R N).1 =
      ((Finset.range N).image (samplePt cx cy R N)).filter
        (fun p => InBounds p.1 p.2 img.w img.h) ∧
    (caLoop img cx cy R N).2.1 =
      ∑ p ∈ (caLoop img cx cy R N).1, (img.pixI p.1 p.2 : ℝ) ∧
    (caLoop img cx cy R N).2.2 = (caLoop img cx cy R N).1.card := by
  obtain ⟨h1, h2, h3⟩ :=
    caLoop_invariant img cx cy R N (List.range N) ∅ 0 0 (by simp) (by simp)
  unfold caLoop
  have hrange : (List.range N).toFinset = Finset.range N := by
    ext a
    simp
  rw [hrange, Finset.empty_union] at h1
  exact ⟨h1, h2, h3⟩

/-- C2: whenever the guards do not fire (valid image, positive radius,
circle not entirely outside the bounds per axis), `CircularAverageNearest`
computes exactly what the spec describes: it samples
`N = max(8, round(2 pi R))` points at angles `2 pi k / N`, rounds each
position `center + R*(cos, sin)` to the nearest integer pixel, discards
out-of-bounds positions, counts each distinct pixel at most once, and
returns the arithmetic mean of the surviving unique intensities with
their count — NaN with count 0 when none survive — independently of the
caller's initial sample variable. -/
theorem circularAverage_refines (img : Raster) (cx cy R : ℤ) (sampleVar : ℕ)
    (hw : 0 < img.w) (hh : 0 < img.h) (hR : 0 < R)
    (hin : ¬ (cx + R < 0 ∨ (img.w : ℤ) ≤ cx - R ∨ cy + R < 0 ∨ (img.h : ℤ) ≤ cy - R)) :
    circularAverageNearest img cx cy R sampleVar = circularAverageSpec img cx cy R := by
  obtain ⟨h1, h2, h3⟩ := caLoop_spec img cx cy R (circN R)
  unfold circularAverageNearest circularAverageSpec
  rw [if_neg (by push_neg; refine ⟨⟨?_, ?_⟩, ?_⟩ <;> omega)]
  rw [if_neg hin]
  dsimp only
  unfold circN at h1 h2 h3 ⊢
  rw [h2, h3, h1]
  split_ifs with hc
  · rw [hc]
  · rfl

theorem circularAverage_refines_witness :
    0 < img4.w ∧ 0 < img4.h ∧ (0 : ℤ) < 1 ∧
    ¬ ((2 : ℤ) + 1 < 0 ∨ (img4.w : ℤ) ≤ 2 - 1 ∨ (2 : ℤ) + 1 < 0 ∨ (img4.h : ℤ) ≤ 2 - 1) ∧
    circularAverageNearest img4 2 2 1 0 = circularAverageSpec img4 2 2 1 :=
  ⟨by decide, by decide, by decide, by decide,
    circularAverage_refines img4 2 2 1 0 (by decide) (by decide) (by decide) (by decide)⟩

/-! ## Claim C3, continued: the geometric reading of the claim fails

The claim's hypothesis "the circle lies entirely outside the image
bounds" is strictly wider than the source's per-axis guard.  In the
gap the claim is false of the code: a circle entirely outside the
bounds can still have a sample position that rounds to an in-bounds
pixel.  The material below exhibits this at the image `img10`, center
(-3, -3), radius 4, whose sample k = 3 of N = 25 rounds to (0, 0). -/

lemma circN_four : circN 4 = 25 := by
  have hpi1 : (3.141592 : ℝ) < Real.pi := Real.pi_gt_d6
  have hpi2 : Real.pi < 3.141593 := Real.pi_lt_d6
  unfold circN lroundR
  rw [if_pos (by positivity)]
  have hfl : ⌊2 * Real.pi * ((4 : ℤ) : ℝ) + 1 / 2⌋ = 25 := by
    rw [Int.floor_eq_iff]
    push_cast
    constructor
    · nlinarith
    · nlinarith
  rw [hfl]
  rfl

lemma trig_bounds_k3 :
    (0.625 : ℝ) < Real.cos (2 * Real.pi * 3 / 25) ∧ Real.cos (2 * Real.pi * 3 / 25) < 0.75 ∧
    (0.625 : ℝ) < Real.sin (2 * Real.pi * 3 / 25) ∧ Real.sin (2 * Real.pi * 3 / 25) < 0.75 := by
  have hpi1 : (3.141592 : ℝ) < Real.pi := Real.pi_gt_d6
  have hpi2 : Real.pi < 3.141593 := Real.pi_lt_d6
  set x : ℝ := 2 * Real.pi * 3 / 25 with hxdef
  have hxlo : (0.7539820 : ℝ) < x := by rw [hxdef]; linarith
  have hxhi : x < 0.7539824 := by rw [hxdef]; linarith
  have hxpos : (0 : ℝ) < x := by linarith
  have hxabs : |x| ≤ 1 := by rw [abs_of_pos hxpos]; linarith
  have hcb := Real.cos_bound hxabs
  have hsb := Real.sin_bound hxabs
  rw [abs_of_pos hxpos] at hcb hsb
  obtain ⟨hc1, hc2⟩ := abs_le.mp hcb
  obtain ⟨hs1, hs2⟩ := abs_le.mp hsb
  have hx2lo : (0.56848 : ℝ) < x^2 := by nlinarith
  have hx2hi : x^2 < 0.56850 := by nlinarith
  have hx3lo : (0.42861 : ℝ) < x^3 := by nlinarith
  have hx3hi : x^3 < 0.42864 := by nlinarith
  have hx4hi : x^4 < 0.32320 := by nlinarith
  have hx4lo : (0 : ℝ) < x^4 := by positivity
  refine ⟨?_, ?_, ?_, ?_⟩ <;> nlinarith

lemma samplePt_k3 : samplePt (-3) (-3) 4 25 3 = (0, 0) := by
  obtain ⟨hc1, hc2, hs1, hs2⟩ := trig_bounds_k3
  unfold samplePt
  have hang : 2 * Real.pi * ((3 : ℕ) : ℝ) / ((25 : ℕ) : ℝ) = 2 * Real.pi * 3 / 25 := by
    norm_num
  rw [hang]
  have hxval : ((-3 : ℤ) : ℝ) + ((4 : ℤ) : ℝ) * Real.cos (2 * Real.pi * 3 / 25) =
      -3 + 4 * Real.cos (2 * Real.pi * 3 / 25) := by
    push_cast
    ring
  have hyval : ((-3 : ℤ) : ℝ) + ((4 : ℤ) : ℝ) * Real.sin (2 * Real.pi * 3 / 25) =
      -3 + 4 * Real.sin (2 * Real.pi * 3 / 25) := by
    push_cast
    ring
  rw [hxval, hyval]
  have hx0 : lroundR (-3 + 4 * Real.cos (2 * Real.pi * 3 / 25)) = 0 := by
    unfold lroundR
    rw [if_neg (by push_neg; nlinarith)]
    rw [Int.ceil_eq_iff]
    constructor
    · push_cast
      nlinarith
    · push_cast
      nlinarith
  have hy0 : lroundR (-3 + 4 * Real.sin (2 * Real.pi * 3 / 25)) = 0 := by
    unfold lroundR
    rw [if_neg (by push_neg; nlinarith)]
    rw [Int.ceil_eq_iff]
    constructor
    · push_cast
      nlinarith
    · push_cast
      nlinarith
  rw [hx0, hy0]

lemma circularAverage_img10 :
    (circularAverageNearest img10 (-3) (-3) 4 0).1.isSome = true ∧
    0 < (circularAverageNearest img10 (-3) (-3) 4 0).2 := by
  obtain ⟨h1, h2, h3⟩ := caLoop_spec img10 (-3) (-3) 4 (circN 4)
  have hmem : ((0 : ℤ), (0 : ℤ)) ∈ (caLoop img10 (-3) (-3) 4 (circN 4)).1 := by
    rw [h1, circN_four, Finset.mem_filter]
    refine ⟨?_, ?_⟩
    · rw [Finset.mem_image]
      refine ⟨3, ?_, samplePt_k3⟩
      rw [Finset.mem_range]
      norm_num
    · show InBounds 0 0 img10.w img10.h
      decide
  have hcard : 0 < (caLoop img10 (-3) (-3) 4 (circN 4)).1.card :=
    Finset.card_pos.mpr ⟨_, hmem⟩
  have hne : (caLoop img10 (-3) (-3) 4 (circN 4)).2.2 ≠ 0 := by
    rw [h3]
    omega
  unfold circularAverageNearest
  rw [if_neg (by decide), if_neg (by decide)]
  dsimp only
  rw [if_neg hne]
  refine ⟨rfl, ?_⟩
  show 0 < (caLoop img10 (-3) (-3) 4 (circN 4)).2.2
  rw [h3]
  exact hcard

/-- C3 counterexample: for the 10-by-10 image `img10`, center (-3, -3)
and radius 4, the circle lies entirely outside the image bounds — no
point of it has both coordinates non-negative, so it misses the
rectangle from (0, 0) to (w-1, h-1) under every reading — yet
`CircularAverageNearest` does not return NaN with 0 samples: sample
k = 3 of N = 25 rounds to the in-bounds pixel (0, 0), and a finite
average with a positive unique-sample count is returned. -/
theorem circularAverage_outside_not_nan :
    (0 : ℤ) < 4 ∧ 0 < img10.w ∧ 0 < img10.h ∧
    (∀ p : ℝ × ℝ, (p.1 + 3) ^ 2 + (p.2 + 3) ^ 2 = 16 →
      ¬ (0 ≤ p.1 ∧ p.1 ≤ (img10.w : ℝ) - 1 ∧ 0 ≤ p.2 ∧ p.2 ≤ (img10.h : ℝ) - 1)) ∧
    (circularAverageNearest img10 (-3) (-3) 4 0).1.isSome = true ∧
    0 < (circularAverageNearest img10 (-3) (-3) 4 0).2 ∧
    circularAverageNearest img10 (-3) (-3) 4 0 ≠ (none, 0) := by
  obtain ⟨hsome, hpos⟩ := circularAverage_img10
  refine ⟨by norm_num, by decide, by decide, ?_, hsome, hpos, ?_⟩
  · rintro ⟨px, py⟩ hcirc ⟨hx, _, hy, _⟩
    nlinarith
  · intro heq
    rw [heq] at hpos
    simp at hpos
